import Mathlib

/-! Verification of the RailNiyantra train-traffic-control optimizer.

Shallow embedding of `src/train-traffic-control-mvp/optimizer.py`
(`TrainScheduleOptimizer`).  The external MILP solver (PuLP/CBC) is treated
as a black box, following the repository's own solver boundary: the code
emits a model (variables, linear constraints, an objective) and reads back a
status plus a value for every variable.  We embed the emitted model as
explicit `Prop`-valued constraint predicates and a rational objective, and
the result-synthesis code as pure functions parametrised by the solver's
answer (`SolverResult`).  Binary variables are modelled as `Bool`-valued
assignments, continuous delay variables as `ℚ`-valued assignments, and the
`random.uniform(5, 15)` draw of the fallback path as an explicit parameter.
-/

namespace Rail

/-- Modelled from the spec: the `Train` value type of the `models` module
(not present under `src/`) — identity, display name, and `priority`
(lower integer = higher precedence). -/
structure Train where
  id : Nat
  name : String
  priority : Int
deriving DecidableEq

/-- Modelled from the spec: the `Section` value type — identity, `capacity`
(max trains simultaneously occupying it per time slot), and the
`is_blocked` disruption flag. -/
structure Section where
  id : Nat
  capacity : Nat
  is_blocked : Bool
deriving DecidableEq

/-- Modelled from the spec: the `Station` value type — identity, name, and
the `has_loop_line` flag. -/
structure Station where
  id : Nat
  name : String
  has_loop_line : Bool
deriving DecidableEq

/-- Modelled from the spec: `TrainSchedule` binds one `Train` to a `route`
and exposes a "next station" lookup.  The lookup's implementation lives in
the `models` module (not under `src/`), so the next station is held as a
field and `get_next_station` returns it. -/
structure TrainSchedule where
  train : Train
  route : List Section
  next_station : Option Station
deriving DecidableEq

def TrainSchedule.get_next_station (ts : TrainSchedule) : Option Station :=
  ts.next_station

/-- Modelled from the spec: `NetworkState` — snapshot timestamp (minutes,
as an integer absolute time), active trains, and the ordered section
inventory. -/
structure NetworkState where
  timestamp : Int
  active_trains : List TrainSchedule
  sections : List Section

/-- Modelled from the spec: the `OptimizationResult` output value. -/
structure OptimizationResult where
  schedule : List (Train × Section × Int)
  throughput : ℚ
  average_delay : ℚ
  conflicts_resolved : Nat
  recommendations : List String

/-- Solver status, per the solver boundary of the spec (§6). -/
inductive SolverStatus
  | optimal
  | feasible
  | infeasible
  | unbounded
  | notSolved
deriving DecidableEq

/-- `prob.status == LpStatusOptimal or prob.status == LpStatusFeasible`
(optimizer.py lines 104 and 249). -/
def SolverStatus.isSuccess : SolverStatus → Bool
  | .optimal => true
  | .feasible => true
  | _ => false

/-- A black-box solver answer: a status, a value for every binary
occupancy variable `x_{train.id}_{section.id}_{t_slot}` (binary variables
take integral values, so `Bool`), and a value for every continuous delay
variable, keyed by train id. -/
structure SolverResult where
  status : SolverStatus
  occ : Nat → Nat → Nat → Bool
  delay : Nat → ℚ

/-- `self.time_horizon = 240` (optimizer.py line 17). -/
def time_horizon : Nat := 240

/-- `self.time_slots = 48` (optimizer.py line 18). -/
def time_slots : Nat := 48

/-- `self.slot_duration = 5` (optimizer.py line 19). -/
def slot_duration : Nat := 5

/-- `trains = [ts.train for ts in self.network_state.active_trains]`
(optimizer.py lines 31 and 199). -/
def trainsOf (st : NetworkState) : List Train :=
  st.active_trains.map (·.train)

/-- `self.network_state.timestamp + datetime.timedelta(minutes=t_slot *
self.slot_duration)` (optimizer.py lines 111 and 256). -/
def slotTime (st : NetworkState) (t : Nat) : Int :=
  st.timestamp + ((t * slot_duration : Nat) : Int)

/-- Schedule extraction (optimizer.py lines 106–112 and 251–257): for every
train, section of the given universe, and time slot, emit a
`(train, section, time)` triple whenever the solved occupancy variable has
value above 0.5 (i.e. a binary value of 1). -/
def extractSchedule (st : NetworkState) (secs : List Section)
    (occ : Nat → Nat → Nat → Bool) : List (Train × Section × Int) :=
  (trainsOf st).flatMap fun tr =>
    secs.flatMap fun s =>
      ((List.range time_slots).filter fun t => occ tr.id s.id t).map fun t =>
        (tr, s, slotTime st t)

/-- `affected_trains` (optimizer.py lines 187–190): trains whose route
contains the disrupted section. -/
def affectedTrains (st : NetworkState) (disrupted : Section) : List Train :=
  (st.active_trains.filter fun ts => disrupted ∈ ts.route).map (·.train)

/-- `available_sections = [s for s in self.network_state.sections if not
s.is_blocked]` (optimizer.py line 200). -/
def availableSections (st : NetworkState) : List Section :=
  st.sections.filter fun s => !s.is_blocked

/-- The result-synthesis part of `optimize_schedule` (optimizer.py lines
99–139), parametrised by the solver's answer and by the value `randDelay`
drawn by `random.uniform(5, 15)` on the fallback path (line 130). -/
def optimize_schedule (st : NetworkState) (sr : SolverResult)
    (randDelay : ℚ) : OptimizationResult :=
  let trains := trainsOf st
  let secs := st.sections
  if sr.status.isSuccess then
    let schedule := extractSchedule st secs sr.occ
    let total_delay : ℚ := (trains.map fun tr => sr.delay tr.id).sum
    let avg_delay : ℚ :=
      if trains.isEmpty then 0 else total_delay / (trains.length : ℚ)
    let throughput : ℚ := (trains.length : ℚ) * ((time_horizon : ℚ) / 60)
    let conflicts_resolved : Nat := trains.length - secs.length
    let recs : List String :=
      ["Optimization completed with " ++ toString schedule.length ++
        " scheduled movements",
       "Average delay reduced to " ++ toString avg_delay ++ " minutes"] ++
      (if conflicts_resolved > 0 then
        ["Resolved " ++ toString conflicts_resolved ++ " scheduling conflicts"]
       else [])
    ⟨schedule, throughput, avg_delay, conflicts_resolved, recs⟩
  else
    ⟨[], (trains.length : ℚ) / 4, randDelay, 0,
      ["Optimization did not find optimal solution"]⟩

/-- The result-synthesis part of `handle_disruption` (optimizer.py lines
186–283), parametrised by the solver's answer to the disruption model. -/
def handle_disruption (st : NetworkState) (disrupted : Section)
    (sr : SolverResult) : OptimizationResult :=
  let affected := affectedTrains st disrupted
  let trains := trainsOf st
  let available := availableSections st
  let throughput : ℚ := ((trains.length - affected.length : Nat) : ℚ) / 4
  if sr.status.isSuccess then
    let schedule := extractSchedule st available sr.occ
    let total_delay : ℚ := (trains.map fun tr => sr.delay tr.id).sum
    let avg_delay : ℚ :=
      if trains.isEmpty then 0 else total_delay / (trains.length : ℚ)
    let recs : List String :=
      ["Disruption handled: " ++ toString affected.length ++ " trains rerouted",
       "Alternative schedule created avoiding blocked section " ++
         toString disrupted.id,
       "Estimated additional delay: " ++ toString avg_delay ++ " minutes"] ++
      (if affected.length > 3 then
        ["Consider deploying additional rolling stock for express services"]
       else []) ++
      ["Monitor section " ++ toString disrupted.id ++
        " for clearance to resume normal operations"]
    ⟨schedule, throughput, avg_delay, affected.length, recs⟩
  else
    ⟨[], throughput, 30, affected.length,
      ["No feasible rerouting solution found",
       "Manual coordination required for " ++ toString affected.length ++
         " affected trains",
       "Consider temporary bus services for passenger connections"]⟩

/-- `approaching_trains` (optimizer.py lines 145–148): trains whose next
station equals the target station. -/
def approachingTrains (st : NetworkState) (station : Station) : List Train :=
  (st.active_trains.filter fun ts =>
    ts.get_next_station = some station).map (·.train)

/-- Ascending-priority comparison used by
`approaching_trains.sort(key=lambda t: t.priority)` (optimizer.py lines
160 and 175). -/
def priorityLE (a b : Train) : Prop := a.priority ≤ b.priority

instance : DecidableRel priorityLE := fun a b => Int.decLe a.priority b.priority

/-- Python's `list.sort` with a key is a stable sort by that key; it is
modelled by stable insertion sort on the ascending-priority relation. -/
def sortByPriority (l : List Train) : List Train :=
  List.insertionSort priorityLE l

/-- The decision record returned by `optimize_crossing` (a Python dict with
branch-dependent keys, modelled with `Option` fields for the keys that are
absent on some branches). -/
structure CrossingDecision where
  station : String
  action : String
  reason : Option String
  through_train : Option String
  loop_trains : Option (List String)
  order : Option (List String)

/-- `optimize_crossing` (optimizer.py lines 141–181). -/
def optimize_crossing (st : NetworkState) (station : Station) :
    CrossingDecision :=
  let approaching := approachingTrains st station
  if approaching.length < 2 then
    ⟨station.name, "NO_CROSSING_NEEDED", some "Less than 2 trains approaching",
      none, none, none⟩
  else if station.has_loop_line then
    let sorted := sortByPriority approaching
    ⟨station.name, "LOOP_LINE_CROSSING", none,
      sorted.head?.map (·.name),
      some ((sorted.drop 1).map (·.name)),
      some (sorted.map (·.name))⟩
  else
    ⟨station.name, "SEQUENTIAL_PASSAGE", none, none, none,
      some ((sortByPriority approaching).map (·.name))⟩

/-- Constraint family 1 (optimizer.py lines 70–75 and 226–231): for every
train and slot, the sum over the section universe of the occupancy
variables is at most 1. -/
def oneSectionPerSlot (trains : List Train) (secs : List Section)
    (occ : Nat → Nat → Nat → Bool) : Prop :=
  ∀ tr ∈ trains, ∀ t < time_slots,
    secs.countP (fun s => occ tr.id s.id t) ≤ 1

/-- Constraint family 2 (optimizer.py lines 78–83 and 234–239): for every
section of the universe and every slot, the sum over the trains of the
occupancy variables is at most the section's capacity. -/
def capacityOk (trains : List Train) (secs : List Section)
    (occ : Nat → Nat → Nat → Bool) : Prop :=
  ∀ s ∈ secs, ∀ t < time_slots,
    trains.countP (fun tr => occ tr.id s.id t) ≤ s.capacity

/-- Constraint family 3 (optimizer.py lines 86–93), nominal model only:
`occupy[train, section_i, t] ≤ occupy[train, section_{i+1}, t+1] + 1` for
adjacent sections in the global order. -/
def progressionOk (trains : List Train) (secs : List Section)
    (occ : Nat → Nat → Nat → Bool) : Prop :=
  ∀ tr ∈ trains, ∀ i, ∀ hi : i + 1 < secs.length, ∀ t, t + 1 < time_slots →
    (occ tr.id (secs.get ⟨i, Nat.lt_of_succ_lt hi⟩).id t).toNat ≤
      (occ tr.id (secs.get ⟨i + 1, hi⟩).id (t + 1)).toNat + 1

/-- Variable bounds on the continuous delay variables (optimizer.py lines
36–39: `lowBound=0, upBound=60`; lines 204–207: `upBound=120`). -/
def delayBoundsOk (trains : List Train) (delay : Nat → ℚ) (ub : ℚ) : Prop :=
  ∀ tr ∈ trains, 0 ≤ delay tr.id ∧ delay tr.id ≤ ub

/-- `sections[-2:]` (optimizer.py line 54): the last two sections of the
inventory (the whole inventory when it has fewer than two sections, as in
Python). -/
def lastTwo (secs : List Section) : List Section :=
  secs.drop (secs.length - 2)

/-- `range(max(30, self.time_slots-15), self.time_slots)` (optimizer.py
line 55): the slots whose occupancy of the last two sections counts as
completion. -/
def completedSlots : List Nat :=
  List.range' (max 30 (time_slots - 15)) (time_slots - max 30 (time_slots - 15))

/-- `completed_trains` (optimizer.py lines 51–56): the sum of the occupancy
variables over all trains, the last two sections, and the completion
slots. -/
def completedSum (st : NetworkState) (occ : Nat → Nat → Nat → Bool) : Nat :=
  ((trainsOf st).map fun tr =>
    ((lastTwo st.sections).map fun s =>
      (completedSlots.map fun t => (occ tr.id s.id t).toNat).sum).sum).sum

/-- `weighted_delays` (optimizer.py lines 59–62): `Σ (6 − priority) ×
delay[train]`. -/
def weightedDelays (st : NetworkState) (delay : Nat → ℚ) : ℚ :=
  ((trainsOf st).map fun tr =>
    ((6 : ℚ) - (tr.priority : ℚ)) * delay tr.id).sum

/-- The nominal objective (optimizer.py lines 47–48 and 65):
`10 × completed_trains − 1 × weighted_delays`, maximized. -/
def objective (st : NetworkState) (occ : Nat → Nat → Nat → Bool)
    (delay : Nat → ℚ) : ℚ :=
  10 * (completedSum st occ : ℚ) - 1 * weightedDelays st delay

/-- A solver answer is feasible for the nominal model when it satisfies
every emitted constraint and variable bound. -/
def nominalFeasible (st : NetworkState) (occ : Nat → Nat → Nat → Bool)
    (delay : Nat → ℚ) : Prop :=
  oneSectionPerSlot (trainsOf st) st.sections occ ∧
  capacityOk (trainsOf st) st.sections occ ∧
  progressionOk (trainsOf st) st.sections occ ∧
  delayBoundsOk (trainsOf st) delay 60

/-- A solver answer is optimal for the nominal model when it is feasible
and no feasible answer has a larger objective. -/
def nominalOptimal (st : NetworkState) (occ : Nat → Nat → Nat → Bool)
    (delay : Nat → ℚ) : Prop :=
  nominalFeasible st occ delay ∧
  ∀ occ2 delay2, nominalFeasible st occ2 delay2 →
    objective st occ2 delay2 ≤ objective st occ delay

/-- The slots of "exactly the final quarter of the time horizon (the last
`time_slots/4` slots)" as the claim words it — to be compared with the
source-derived `completedSlots`. -/
def completedSlotsClaim : List Nat :=
  List.range' (time_slots - time_slots / 4) (time_slots / 4)

/-- `completed` as the claim words it: occupancy of the last two sections
summed over exactly the final quarter of the horizon. -/
def completedSumClaim (st : NetworkState)
    (occ : Nat → Nat → Nat → Bool) : Nat :=
  ((trainsOf st).map fun tr =>
    ((lastTwo st.sections).map fun s =>
      (completedSlotsClaim.map fun t => (occ tr.id s.id t).toNat).sum).sum).sum

/-- The objective as the claim words it. -/
def objectiveClaim (st : NetworkState) (occ : Nat → Nat → Nat → Bool)
    (delay : Nat → ℚ) : ℚ :=
  10 * (completedSumClaim st occ : ℚ) - 1 * weightedDelays st delay

/-- Number of schedule entries that assign some train to section `s` at
absolute time `tm`. -/
def countEntriesAt (sched : List (Train × Section × Int)) (s : Section)
    (tm : Int) : Nat :=
  sched.countP fun e => decide (e.2.1 = s ∧ e.2.2 = tm)

/-! ## Concrete fixtures used by witnesses and counterexamples -/

def exTrain1 : Train := ⟨1, "T1", 1⟩

def secBlocked : Section := ⟨1, 1, true⟩

def secOpen : Section := ⟨2, 1, false⟩

/-- One active train routed over the open section; the inventory holds one
blocked and one open section. -/
def exState : NetworkState :=
  ⟨0, [⟨exTrain1, [secOpen], none⟩], [secBlocked, secOpen]⟩

/-- A solver answer that puts train 1 on section 2 at slot 0. -/
def exOcc : Nat → Nat → Nat → Bool := fun tid sid t =>
  tid == 1 && sid == 2 && t == 0

def srSolved : SolverResult := ⟨.optimal, exOcc, fun _ => 0⟩

def srFail : SolverResult := ⟨.infeasible, fun _ _ _ => false, fun _ => 0⟩

def srIdle : SolverResult := ⟨.optimal, fun _ _ _ => false, fun _ => 0⟩

/-- The disrupted section of the five-train scenario. -/
def c7Sec : Section := ⟨9, 1, true⟩

/-- Five active trains, two of whose routes contain the disrupted
section. -/
def c7State : NetworkState :=
  ⟨0,
   [⟨⟨1, "A", 1⟩, [c7Sec], none⟩,
    ⟨⟨2, "B", 2⟩, [c7Sec], none⟩,
    ⟨⟨3, "C", 3⟩, [], none⟩,
    ⟨⟨4, "D", 4⟩, [], none⟩,
    ⟨⟨5, "E", 5⟩, [], none⟩],
   []⟩

/-- Three active trains and a single section, for the fallback
conflicts-resolved scenario. -/
def c10State : NetworkState :=
  ⟨0,
   [⟨⟨1, "A", 1⟩, [secOpen], none⟩,
    ⟨⟨2, "B", 2⟩, [secOpen], none⟩,
    ⟨⟨3, "C", 3⟩, [secOpen], none⟩],
   [secOpen]⟩

/-! ## Helper lemmas -/

/-- Every extracted schedule entry's section comes from the section
universe the extraction loop iterates over. -/
theorem sec_mem_of_mem_extract {st : NetworkState} {secs : List Section}
    {occ : Nat → Nat → Nat → Bool} {e : Train × Section × Int}
    (h : e ∈ extractSchedule st secs occ) : e.2.1 ∈ secs := by
  unfold extractSchedule at h
  simp only [List.mem_flatMap, List.mem_map, List.mem_filter] at h
  obtain ⟨tr, _, s, hs, t, _, rfl⟩ := h
  exact hs

/-! ## Claim theorems -/

/-- C5: when the solver status is neither OPTIMAL nor FEASIBLE, the nominal
path returns an empty schedule, the randomized delay estimate (in [5,15]
whenever the uniform draw is), throughput `trains / 4`, and the
no-optimal-solution recommendation. -/
theorem c5_nominal_fallback (st : NetworkState) (sr : SolverResult) (r : ℚ)
    (hfail : sr.status.isSuccess = false) (h5 : 5 ≤ r) (h15 : r ≤ 15) :
    (optimize_schedule st sr r).schedule = [] ∧
    5 ≤ (optimize_schedule st sr r).average_delay ∧
    (optimize_schedule st sr r).average_delay ≤ 15 ∧
    (optimize_schedule st sr r).throughput = ((trainsOf st).length : ℚ) / 4 ∧
    (optimize_schedule st sr r).recommendations =
      ["Optimization did not find optimal solution"] := by
  simp [optimize_schedule, hfail]
  exact ⟨h5, h15⟩

theorem c5_nominal_fallback_witness :
    (optimize_schedule exState srFail 7).schedule = [] ∧
    5 ≤ (optimize_schedule exState srFail 7).average_delay ∧
    (optimize_schedule exState srFail 7).average_delay ≤ 15 ∧
    (optimize_schedule exState srFail 7).throughput =
      ((trainsOf exState).length : ℚ) / 4 ∧
    (optimize_schedule exState srFail 7).recommendations =
      ["Optimization did not find optimal solution"] :=
  c5_nominal_fallback exState srFail 7 rfl (by norm_num) (by norm_num)

/-- C6: when the disruption solve fails, `handle_disruption` returns an
empty schedule, average delay exactly 30.0, and the manual-coordination /
contingency-transport recommendations. -/
theorem c6_disruption_fallback (st : NetworkState) (d : Section)
    (sr : SolverResult) (hfail : sr.status.isSuccess = false) :
    (handle_disruption st d sr).schedule = [] ∧
    (handle_disruption st d sr).average_delay = 30 ∧
    (handle_disruption st d sr).recommendations =
      ["No feasible rerouting solution found",
       "Manual coordination required for " ++
         toString (affectedTrains st d).length ++ " affected trains",
       "Consider temporary bus services for passenger connections"] := by
  simp [handle_disruption, hfail]

theorem c6_disruption_fallback_witness :
    (handle_disruption c7State c7Sec srFail).schedule = [] ∧
    (handle_disruption c7State c7Sec srFail).average_delay = 30 ∧
    (handle_disruption c7State c7Sec srFail).recommendations =
      ["No feasible rerouting solution found",
       "Manual coordination required for " ++
         toString (affectedTrains c7State c7Sec).length ++ " affected trains",
       "Consider temporary bus services for passenger connections"] :=
  c6_disruption_fallback c7State c7Sec srFail rfl

/-- C7: on both the success and the failure branch, `conflicts_resolved`
equals the number of active trains whose route contains the disrupted
section; in the concrete five-train scenario with two affected trains it
equals 2 for either solver outcome. -/
theorem c7_conflicts_resolved (st : NetworkState) (d : Section)
    (sr : SolverResult) :
    (handle_disruption st d sr).conflicts_resolved =
      (affectedTrains st d).length ∧
    (trainsOf c7State).length = 5 ∧
    (affectedTrains c7State c7Sec).length = 2 ∧
    (handle_disruption c7State c7Sec srIdle).conflicts_resolved = 2 ∧
    (handle_disruption c7State c7Sec srFail).conflicts_resolved = 2 := by
  refine ⟨?_, by decide, by decide, by decide, by decide⟩
  cases h : sr.status.isSuccess <;> simp [handle_disruption, h]

/-- C8: with zero active trains the division producing `average_delay` is
guarded (`if trains else 0`), and on a successful solve both entry points
return an empty schedule with zero average delay.  Both embeddings are
total Lean functions, so no exception can be raised. -/
theorem c8_zero_trains (st : NetworkState) (sr : SolverResult) (d : Section)
    (r : ℚ) (hempty : st.active_trains = [])
    (hsucc : sr.status.isSuccess = true) :
    (optimize_schedule st sr r).schedule = [] ∧
    (optimize_schedule st sr r).average_delay = 0 ∧
    (handle_disruption st d sr).schedule = [] ∧
    (handle_disruption st d sr).average_delay = 0 := by
  simp [optimize_schedule, handle_disruption, hsucc, trainsOf, hempty,
    extractSchedule]

theorem c8_zero_trains_witness :
    (optimize_schedule ⟨0, [], [secOpen]⟩ srIdle 7).schedule = [] ∧
    (optimize_schedule ⟨0, [], [secOpen]⟩ srIdle 7).average_delay = 0 ∧
    (handle_disruption ⟨0, [], [secOpen]⟩ secBlocked srIdle).schedule = [] ∧
    (handle_disruption ⟨0, [], [secOpen]⟩ secBlocked srIdle).average_delay
      = 0 :=
  c8_zero_trains ⟨0, [], [secOpen]⟩ srIdle secBlocked 7 rfl rfl

/-- C10: on the nominal fallback path `conflicts_resolved` is always 0 (the
variable is initialized to 0 and only reassigned on the success branch);
the `max(0, trains − sections)` formula applies only on the success
branch. -/
theorem c10_fallback_conflicts (st : NetworkState) (sr : SolverResult)
    (r : ℚ) :
    (sr.status.isSuccess = false →
      (optimize_schedule st sr r).conflicts_resolved = 0) ∧
    (sr.status.isSuccess = true →
      (optimize_schedule st sr r).conflicts_resolved =
        (trainsOf st).length - st.sections.length) := by
  constructor <;> intro h <;> simp [optimize_schedule, h]

theorem c10_fallback_conflicts_witness :
    (optimize_schedule c10State srFail 7).conflicts_resolved = 0 ∧
    (trainsOf c10State).length = 3 ∧
    c10State.sections.length = 1 :=
  ⟨(c10_fallback_conflicts c10State srFail 7).1 rfl, by decide, by decide⟩

/-- C1 (amended): every schedule entry of `handle_disruption` references a
section whose `is_blocked` flag is false, and — provided the disrupted
section is itself flagged blocked — the disrupted section never appears in
any entry.  (The unamended claim fails when the disrupted section is not
flagged blocked, see the counterexample.) -/
theorem c1_blocked_never_scheduled (st : NetworkState) (disrupted : Section)
    (sr : SolverResult) :
    (∀ e ∈ (handle_disruption st disrupted sr).schedule,
      e.2.1.is_blocked = false) ∧
    (disrupted.is_blocked = true →
      ∀ e ∈ (handle_disruption st disrupted sr).schedule,
        e.2.1 ≠ disrupted) := by
  have hsched : ∀ e ∈ (handle_disruption st disrupted sr).schedule,
      e.2.1.is_blocked = false := by
    intro e he
    cases h : sr.status.isSuccess with
    | false => simp [handle_disruption, h] at he
    | true =>
      simp only [handle_disruption, h, if_true] at he
      have hmem := sec_mem_of_mem_extract he
      have h2 : e.2.1 ∈ st.sections ∧ e.2.1.is_blocked = false := by
        simpa [availableSections] using hmem
      exact h2.2
  refine ⟨hsched, fun hb e he heq => ?_⟩
  have := hsched e he
  rw [heq, hb] at this
  exact absurd this (by simp)

/-- C1 counterexample: the claim as stated only assumes the network has
some blocked section; `handle_disruption` never checks that the disrupted
section itself is blocked.  With blocked `secBlocked` in the inventory,
disrupted section `secOpen` (not flagged blocked), and a solver answer that
satisfies every emitted constraint, the disrupted section appears in the
output schedule. -/
theorem c1_counterexample :
    secBlocked ∈ exState.sections ∧ secBlocked.is_blocked = true ∧
    oneSectionPerSlot (trainsOf exState) (availableSections exState) exOcc ∧
    capacityOk (trainsOf exState) (availableSections exState) exOcc ∧
    (exTrain1, secOpen, (0 : Int)) ∈
      (handle_disruption exState secOpen srSolved).schedule := by
  exact ⟨by decide, by decide, by unfold oneSectionPerSlot; decide,
    by unfold capacityOk; decide, by decide⟩

theorem c1_blocked_never_scheduled_witness :
    secBlocked.is_blocked = true ∧
    (exTrain1, secOpen, (0 : Int)) ∈
      (handle_disruption exState secBlocked srSolved).schedule ∧
    ((exTrain1, secOpen, (0 : Int)) : Train × Section × Int).2.1 ≠
      secBlocked ∧
    ((exTrain1, secOpen, (0 : Int)) :
      Train × Section × Int).2.1.is_blocked = false := by
  have h := c1_blocked_never_scheduled exState secBlocked srSolved
  have hmem : (exTrain1, secOpen, (0 : Int)) ∈
      (handle_disruption exState secBlocked srSolved).schedule := by decide
  exact ⟨rfl, hmem, h.2 rfl _ hmem, h.1 _ hmem⟩

theorem countP_flatMap_eq {α β : Type} (l : List α) (f : α → List β)
    (p : β → Bool) :
    (l.flatMap f).countP p = (l.map fun a => (f a).countP p).sum := by
  induction l with
  | nil => simp
  | cons a l ih => simp [List.flatMap_cons, List.countP_append, ih]

theorem countP_range_ite (n t : Nat) (f : Nat → Bool) :
    (List.range n).countP (fun x => decide (x = t) && f x) =
      if t < n ∧ f t = true then 1 else 0 := by
  induction n with
  | zero => simp
  | succ n ih =>
    rw [List.range_succ, List.countP_append, ih]
    simp only [List.countP_cons, List.countP_nil, Nat.zero_add,
      Bool.and_eq_true, decide_eq_true_eq]
    by_cases h1 : t = n
    · subst h1
      cases h2 : f t <;> split_ifs <;> simp_all <;> omega
    · cases h2 : f t <;> split_ifs <;> simp_all <;> omega

theorem sum_map_ite_of_nodup (c : Nat) :
    ∀ (secs : List Section), secs.Nodup → ∀ {s : Section}, s ∈ secs →
      (secs.map fun s2 => if s2 = s then c else 0).sum = c := by
  intro secs
  induction secs with
  | nil => intro _ s hs; cases hs
  | cons a l ih =>
    intro hnd s hs
    obtain ⟨ha, hl⟩ := List.nodup_cons.mp hnd
    rcases List.mem_cons.mp hs with h | h
    · subst h
      have hz : ((l.map fun s2 => if s2 = s then c else 0)).sum = 0 := by
        refine List.sum_eq_zero fun x hx => ?_
        obtain ⟨s2, hs2, rfl⟩ := List.mem_map.mp hx
        have : s2 ≠ s := fun he => ha (he ▸ hs2)
        simp [this]
      simp [hz]
    · have hne : a ≠ s := fun he => ha (he ▸ h)
      simp [hne, ih hl h]

theorem sum_map_toNat_eq_countP (l : List Train) (f : Train → Bool) :
    (l.map fun tr => (f tr).toNat).sum = l.countP f := by
  induction l with
  | nil => simp
  | cons a l ih =>
    rw [List.map_cons, List.sum_cons, List.countP_cons, ih]
    cases h : f a <;> simp [h] <;> omega

theorem slotTime_inj {st : NetworkState} {t1 t2 : Nat}
    (h : slotTime st t1 = slotTime st t2) : t1 = t2 := by
  simp only [slotTime, slot_duration] at h
  omega

/-- For a duplicate-free section universe, the number of extracted schedule
entries landing on section `s` at the absolute time of slot `t` is exactly
the number of trains whose solved occupancy variable for `(s, t)` is 1. -/
theorem countEntriesAt_extract (st : NetworkState) (secs : List Section)
    (occ : Nat → Nat → Nat → Bool) (s : Section) (t : Nat)
    (hnd : secs.Nodup) (hs : s ∈ secs) (ht : t < time_slots) :
    countEntriesAt (extractSchedule st secs occ) s (slotTime st t) =
      (trainsOf st).countP fun tr => occ tr.id s.id t := by
  unfold countEntriesAt extractSchedule
  rw [countP_flatMap_eq]
  have hinner : ∀ tr : Train,
      ((secs.flatMap fun s2 =>
        ((List.range time_slots).filter fun u => occ tr.id s2.id u).map
          fun u => (tr, s2, slotTime st u)).countP
        fun e => decide (e.2.1 = s ∧ e.2.2 = slotTime st t)) =
      (occ tr.id s.id t).toNat := by
    intro tr
    rw [countP_flatMap_eq]
    have hpt : ∀ s2 ∈ secs,
        ((((List.range time_slots).filter fun u => occ tr.id s2.id u).map
          fun u => (tr, s2, slotTime st u)).countP
          fun e => decide (e.2.1 = s ∧ e.2.2 = slotTime st t)) =
        if s2 = s then (occ tr.id s.id t).toNat else 0 := by
      intro s2 _
      rw [List.countP_map]
      by_cases heq : s2 = s
      · subst heq
        rw [if_pos rfl]
        have hcg : ((List.range time_slots).filter
            fun u => occ tr.id s2.id u).countP
              ((fun e : Train × Section × Int =>
                decide (e.2.1 = s2 ∧ e.2.2 = slotTime st t)) ∘
                fun u => (tr, s2, slotTime st u)) =
            ((List.range time_slots).filter
            fun u => occ tr.id s2.id u).countP fun u => decide (u = t) := by
          refine List.countP_congr fun u _ => ?_
          simp only [Function.comp, decide_eq_true_eq]
          constructor
          · rintro ⟨-, h2⟩; exact slotTime_inj h2
          · rintro rfl; exact ⟨by trivial, rfl⟩
        rw [hcg, List.countP_filter, countP_range_ite]
        cases h2 : occ tr.id s2.id t <;> simp [h2, ht]
      · rw [if_neg heq]
        refine List.countP_eq_zero.mpr fun u _ => ?_
        simp only [Function.comp, decide_eq_true_eq, not_and]
        intro h
        exact absurd h heq
    rw [List.map_congr_left hpt, sum_map_ite_of_nodup _ secs hnd hs]
  rw [List.map_congr_left fun tr _ => hinner tr, sum_map_toNat_eq_countP]

/-- C2: whenever the solver answer satisfies the emitted capacity
constraints, the schedule extracted by `optimize_schedule` (over the full
section inventory) and by `handle_disruption` (over the unblocked
universe) never assigns more trains to a section at a slot than its
capacity.  The section inventory is assumed duplicate-free, as a valid
inventory is. -/
theorem c2_capacity_respected (st : NetworkState) (sr srD : SolverResult)
    (r : ℚ) (d : Section) (s : Section) (t : Nat)
    (hnd : st.sections.Nodup) (ht : t < time_slots) :
    (capacityOk (trainsOf st) st.sections sr.occ → s ∈ st.sections →
      countEntriesAt (optimize_schedule st sr r).schedule s (slotTime st t) ≤
        s.capacity) ∧
    (capacityOk (trainsOf st) (availableSections st) srD.occ →
      s ∈ availableSections st →
      countEntriesAt (handle_disruption st d srD).schedule s
        (slotTime st t) ≤ s.capacity) := by
  constructor
  · intro hcap hs
    cases h : sr.status.isSuccess with
    | false => simp [optimize_schedule, h, countEntriesAt]
    | true =>
      have hemb : (optimize_schedule st sr r).schedule =
          extractSchedule st st.sections sr.occ := by
        simp [optimize_schedule, h]
      rw [hemb, countEntriesAt_extract st st.sections sr.occ s t hnd hs ht]
      exact hcap s hs t ht
  · intro hcap hs
    cases h : srD.status.isSuccess with
    | false => simp [handle_disruption, h, countEntriesAt]
    | true =>
      have hemb : (handle_disruption st d srD).schedule =
          extractSchedule st (availableSections st) srD.occ := by
        simp [handle_disruption, h]
      rw [hemb, countEntriesAt_extract st (availableSections st) srD.occ s t
        (hnd.filter _) hs ht]
      exact hcap s hs t ht

theorem c2_capacity_respected_witness :
    countEntriesAt (optimize_schedule exState srSolved 7).schedule secOpen
      (slotTime exState 0) ≤ secOpen.capacity :=
  (c2_capacity_respected exState srSolved srSolved 7 secOpen secOpen 0
    (by decide) (by decide)).1 (by unfold capacityOk; decide) (by decide)

theorem sum_map_range' (f : Nat → Nat) :
    ∀ (n a : Nat), ((List.range' a n).map f).sum =
      ∑ i ∈ Finset.range n, f (a + i) := by
  intro n
  induction n with
  | zero => intro a; simp
  | succ n ih =>
    intro a
    rw [List.range'_succ, List.map_cons, List.sum_cons, ih (a + 1),
      Finset.sum_range_succ']
    have h1 : ∀ i : Nat, f (a + 1 + i) = f (a + (i + 1)) := fun i => by
      rw [show a + 1 + i = a + (i + 1) from by omega]
    simp only [h1, Nat.add_zero]
    omega

/-- `completed` with its slot window written as the closed interval
`[33, 47]` of slots — the last 15 slots of the 48-slot horizon. -/
def completedSumIcc (st : NetworkState)
    (occ : Nat → Nat → Nat → Bool) : Nat :=
  ((trainsOf st).map fun tr =>
    ((lastTwo st.sections).map fun s =>
      ∑ t ∈ Finset.Icc 33 47, (occ tr.id s.id t).toNat).sum).sum

/-- One train; two sections so that `lastTwo` is the whole inventory. -/
def st3 : NetworkState :=
  ⟨0, [⟨⟨1, "T1", 1⟩, [], none⟩], [secBlocked, secOpen]⟩

/-- Occupancy of the final section at slot 33 only — inside the source's
completion window, outside the claim's final-quarter window. -/
def occ3 : Nat → Nat → Nat → Bool := fun tid sid t =>
  tid == 1 && sid == 2 && t == 33

/-- C3 counterexample: the nominal objective counts occupancy of the last
two sections from slot `max(30, time_slots−15) = 33` on, i.e. over the
last 15 slots — not over "exactly the final quarter of the time horizon
(the last `time_slots/4 = 12` slots)" as the claim states.  An occupancy
at slot 33 contributes 10 to the built objective but 0 to the claim's
objective. -/
theorem c3_counterexample :
    objective st3 occ3 (fun _ => 0) = 10 ∧
    objectiveClaim st3 occ3 (fun _ => 0) = 0 ∧
    completedSum st3 occ3 = 1 ∧
    completedSumClaim st3 occ3 = 0 := by
  have h1 : completedSum st3 occ3 = 1 := by decide
  have h2 : completedSumClaim st3 occ3 = 0 := by decide
  have h3 : weightedDelays st3 (fun _ => 0) = 0 := by
    simp [weightedDelays]
  refine ⟨?_, ?_, h1, h2⟩
  · rw [objective, h1, h3]; norm_num
  · rw [objectiveClaim, h2, h3]; norm_num

/-- C3 (amended): the nominal objective equals
`10 × completed − 1 × Σ (6 − priority[train]) × delay[train]` where
`completed` sums the occupancy variables of the last two sections over the
slots `33..47` — the last 15 slots of the horizon (from
`range(max(30, time_slots−15), time_slots)`), not the final quarter. -/
theorem c3_objective_formula (st : NetworkState)
    (occ : Nat → Nat → Nat → Bool) (delay : Nat → ℚ) :
    objective st occ delay =
      10 * (completedSumIcc st occ : ℚ) - 1 * weightedDelays st delay := by
  have hslots : completedSlots = List.range' 33 15 := by decide
  have hsum : completedSum st occ = completedSumIcc st occ := by
    unfold completedSum completedSumIcc
    refine congrArg List.sum (List.map_congr_left fun tr _ => ?_)
    refine congrArg List.sum (List.map_congr_left fun s _ => ?_)
    rw [hslots, sum_map_range' _ 15 33, show (47 : Nat) = 48 - 1 from rfl,
      ← Nat.Ico_succ_right, Finset.sum_Ico_eq_sum_range]
  rw [objective, hsum]

theorem all_zero_of_sum_zero_of_nonneg {l : List ℚ}
    (h0 : ∀ x ∈ l, 0 ≤ x) (hs : l.sum = 0) : ∀ x ∈ l, x = 0 := by
  induction l with
  | nil => intro x hx; cases hx
  | cons a l ih =>
    rw [List.sum_cons] at hs
    have hrest : 0 ≤ l.sum :=
      List.sum_nonneg fun x hx => h0 x (List.mem_cons_of_mem _ hx)
    have ha : 0 ≤ a := h0 a (List.mem_cons_self a l)
    have ha0 : a = 0 := by linarith
    have hl0 : l.sum = 0 := by linarith
    intro x hx
    rcases List.mem_cons.mp hx with rfl | hx
    · exact ha0
    · exact ih (fun y hy => h0 y (List.mem_cons_of_mem _ hy)) hl0 x hx

/-- C9: the nominal model's delay variables occur in no constraint (only in
their own [0, 60] bounds and in the objective, with weight `6 − priority`),
so zeroing them preserves feasibility and strictly improves the objective:
at any optimum with all priorities at most 5 every delay variable is 0, and
an OPTIMAL solve reports `average_delay = 0`. -/
theorem c9_delays_vanish_at_optimum (st : NetworkState)
    (occ : Nat → Nat → Nat → Bool) (delay : Nat → ℚ) (r : ℚ)
    (hp : ∀ tr ∈ trainsOf st, tr.priority ≤ 5)
    (hopt : nominalOptimal st occ delay) :
    (∀ tr ∈ trainsOf st, delay tr.id = 0) ∧
    (optimize_schedule st ⟨.optimal, occ, delay⟩ r).average_delay = 0 := by
  obtain ⟨⟨hone, hcap, hprog, hbnd⟩, hmax⟩ := hopt
  have hzero_feas : nominalFeasible st occ (fun _ => 0) :=
    ⟨hone, hcap, hprog, fun tr htr => ⟨le_refl 0, by norm_num⟩⟩
  have hle := hmax occ (fun _ => 0) hzero_feas
  have hW0 : weightedDelays st (fun _ => 0) = 0 := by
    simp [weightedDelays]
  have hWle : weightedDelays st delay ≤ 0 := by
    rw [objective, objective, hW0] at hle
    linarith
  have hterm_nonneg : ∀ x ∈ (trainsOf st).map
      fun tr => ((6 : ℚ) - (tr.priority : ℚ)) * delay tr.id, 0 ≤ x := by
    intro x hx
    obtain ⟨tr, htr, rfl⟩ := List.mem_map.mp hx
    have hp5 : (tr.priority : ℚ) ≤ 5 := by exact_mod_cast hp tr htr
    have hd : 0 ≤ delay tr.id := (hbnd tr htr).1
    nlinarith
  have hWge : 0 ≤ weightedDelays st delay := List.sum_nonneg hterm_nonneg
  have hWeq : ((trainsOf st).map
      fun tr => ((6 : ℚ) - (tr.priority : ℚ)) * delay tr.id).sum = 0 :=
    le_antisymm hWle hWge
  have hall := all_zero_of_sum_zero_of_nonneg hterm_nonneg hWeq
  have hdz : ∀ tr ∈ trainsOf st, delay tr.id = 0 := by
    intro tr htr
    have hx := hall _ (List.mem_map.mpr ⟨tr, htr, rfl⟩)
    have hp5 : (tr.priority : ℚ) ≤ 5 := by exact_mod_cast hp tr htr
    rcases mul_eq_zero.mp hx with h | h
    · linarith
    · exact h
  refine ⟨hdz, ?_⟩
  have htot : ((trainsOf st).map fun tr => delay tr.id).sum = 0 :=
    List.sum_eq_zero fun x hx => by
      obtain ⟨tr, htr, rfl⟩ := List.mem_map.mp hx
      exact hdz tr htr
  have havg : (optimize_schedule st ⟨.optimal, occ, delay⟩ r).average_delay =
      if (trainsOf st).isEmpty then 0
      else ((trainsOf st).map fun tr => delay tr.id).sum /
        ((trainsOf st).length : ℚ) := by
    simp [optimize_schedule, SolverStatus.isSuccess]
  rw [havg, htot]
  cases h : (trainsOf st).isEmpty <;> simp [h]

/-- One train of priority 1 and an empty section inventory, making the
idle zero-delay answer provably optimal for the nominal model. -/
def st9 : NetworkState := ⟨0, [⟨⟨1, "T1", 1⟩, [], none⟩], []⟩

theorem c9_delays_vanish_at_optimum_witness :
    (optimize_schedule st9
      ⟨.optimal, fun _ _ _ => false, fun _ => 0⟩ 0).average_delay = 0 := by
  have hp : ∀ tr ∈ trainsOf st9, tr.priority ≤ 5 := by decide
  have hfeas : nominalFeasible st9 (fun _ _ _ => false) (fun _ => 0) := by
    refine ⟨by unfold oneSectionPerSlot; decide, by unfold capacityOk; decide,
      ?_, by unfold delayBoundsOk; decide⟩
    intro tr htr i hi t htl
    exact absurd hi (by simp [st9])
  have hopt : nominalOptimal st9 (fun _ _ _ => false) (fun _ => 0) := by
    refine ⟨hfeas, fun occ2 delay2 hf2 => ?_⟩
    have hd2 : 0 ≤ delay2 1 := (hf2.2.2.2 ⟨1, "T1", 1⟩ (by decide)).1
    have hC2 : completedSum st9 occ2 = 0 := by
      simp [completedSum, lastTwo, st9, trainsOf]
    have hC0 : completedSum st9 (fun _ _ _ => false) = 0 := by
      simp [completedSum, lastTwo, st9, trainsOf]
    have hW2 : weightedDelays st9 delay2 = 5 * delay2 1 := by
      simp [weightedDelays, st9, trainsOf]
      norm_num
    have hW0 : weightedDelays st9 (fun _ => 0) = 0 := by
      simp [weightedDelays]
    rw [objective, objective, hC2, hC0, hW2, hW0]
    push_cast
    linarith
  exact (c9_delays_vanish_at_optimum st9 (fun _ _ _ => false)
    (fun _ => 0) 0 hp hopt).2

instance : IsTotal Train priorityLE :=
  ⟨fun a b => Int.le_total a.priority b.priority⟩

instance : IsTrans Train priorityLE :=
  ⟨fun _ _ _ hab hbc => le_trans hab hbc⟩

theorem filter_orderedInsert_pos (p : Int) (a : Train) (ha : a.priority = p) :
    ∀ l : List Train,
      (List.orderedInsert priorityLE a l).filter
          (fun t => t.priority == p) =
        a :: l.filter fun t => t.priority == p := by
  intro l
  induction l with
  | nil => simp [List.orderedInsert, ha]
  | cons b l ih =>
    rw [List.orderedInsert]
    by_cases hle : priorityLE a b
    · rw [if_pos hle, List.filter_cons_of_pos (by simp [ha])]
    · rw [if_neg hle]
      have hblt : b.priority < a.priority := by
        have := lt_of_not_le hle
        exact this
      have hb : ¬ (b.priority == p) = true := by
        simp only [beq_iff_eq]
        intro he
        rw [he, ← ha] at hblt
        exact lt_irrefl _ hblt
      rw [@List.filter_cons_of_neg Train (fun t => t.priority == p) b
          (List.orderedInsert priorityLE a l) hb, ih,
        @List.filter_cons_of_neg Train (fun t => t.priority == p) b l hb]

theorem filter_orderedInsert_ne (p : Int) (a : Train) (ha : a.priority ≠ p) :
    ∀ l : List Train,
      (List.orderedInsert priorityLE a l).filter
          (fun t => t.priority == p) =
        l.filter fun t => t.priority == p := by
  intro l
  induction l with
  | nil => simp [List.orderedInsert, ha]
  | cons b l ih =>
    rw [List.orderedInsert]
    by_cases hle : priorityLE a b
    · rw [if_pos hle, List.filter_cons_of_neg (by simp [ha])]
    · rw [if_neg hle, List.filter_cons, List.filter_cons, ih]

/-- Stability of the priority sort: for every priority value, the trains of
that priority appear in the sorted output exactly in their original
(approach/insertion) order. -/
theorem sortByPriority_stable (p : Int) (l : List Train) :
    (sortByPriority l).filter (fun t => t.priority == p) =
      l.filter fun t => t.priority == p := by
  induction l with
  | nil => rfl
  | cons a l ih =>
    show (List.orderedInsert priorityLE a
      (sortByPriority l)).filter _ = _
    by_cases ha : a.priority = p
    · rw [filter_orderedInsert_pos p a ha, ih,
        List.filter_cons_of_pos (by simp [ha])]
    · rw [filter_orderedInsert_ne p a ha, ih,
        List.filter_cons_of_neg (by simp [ha])]

/-- C4: the crossing arbitration decision.  With fewer than two approaching
trains: `NO_CROSSING_NEEDED` and no ordering.  With at least two and a loop
line: `LOOP_LINE_CROSSING`, the head of the stable priority sort (a train
of minimal priority value) is the through train, the remaining sorted
trains are the loop trains, and the order is the full sorted list.  With at
least two and no loop line: `SEQUENTIAL_PASSAGE` with the full sorted
order.  The sort is an ascending-priority permutation that is stable: ties
keep their original approach order. -/
theorem c4_crossing (st : NetworkState) (station : Station) :
    ((approachingTrains st station).length < 2 →
      (optimize_crossing st station).action = "NO_CROSSING_NEEDED" ∧
      (optimize_crossing st station).order = none) ∧
    (2 ≤ (approachingTrains st station).length →
      station.has_loop_line = true →
      ∃ tr rest, sortByPriority (approachingTrains st station) = tr :: rest ∧
        (optimize_crossing st station).action = "LOOP_LINE_CROSSING" ∧
        (optimize_crossing st station).through_train = some tr.name ∧
        (optimize_crossing st station).loop_trains =
          some (rest.map (·.name)) ∧
        (optimize_crossing st station).order =
          some ((tr :: rest).map (·.name)) ∧
        ∀ u ∈ approachingTrains st station, tr.priority ≤ u.priority) ∧
    (2 ≤ (approachingTrains st station).length →
      station.has_loop_line = false →
      (optimize_crossing st station).action = "SEQUENTIAL_PASSAGE" ∧
      (optimize_crossing st station).order =
        some ((sortByPriority (approachingTrains st station)).map
          (·.name))) ∧
    List.Perm (sortByPriority (approachingTrains st station))
      (approachingTrains st station) ∧
    List.Sorted priorityLE (sortByPriority (approachingTrains st station)) ∧
    (∀ p : Int,
      (sortByPriority (approachingTrains st station)).filter
          (fun t => t.priority == p) =
        (approachingTrains st station).filter fun t => t.priority == p) := by
  refine ⟨?_, ?_, ?_, List.perm_insertionSort priorityLE _,
    List.sorted_insertionSort priorityLE _,
    fun p => sortByPriority_stable p _⟩
  · intro hlt
    simp [optimize_crossing, if_pos hlt]
  · intro hlen hloop
    have hnotlt : ¬ (approachingTrains st station).length < 2 := by omega
    have hlen2 : 2 ≤ (sortByPriority (approachingTrains st station)).length :=
      by
      unfold sortByPriority
      rw [(List.perm_insertionSort priorityLE _).length_eq]
      exact hlen
    obtain ⟨tr, rest, hcons⟩ :
        ∃ tr rest, sortByPriority (approachingTrains st station) =
          tr :: rest := by
      cases hs : sortByPriority (approachingTrains st station) with
      | nil => rw [hs] at hlen2; simp at hlen2
      | cons tr rest => exact ⟨tr, rest, rfl⟩
    refine ⟨tr, rest, hcons, ?_, ?_, ?_, ?_, ?_⟩
    · simp [optimize_crossing, hnotlt, hloop]
    · simp [optimize_crossing, hnotlt, hloop, hcons]
    · simp [optimize_crossing, hnotlt, hloop, hcons]
    · simp [optimize_crossing, hnotlt, hloop, hcons]
    · intro u hu
      have hu2 : u ∈ sortByPriority (approachingTrains st station) :=
        ((List.perm_insertionSort priorityLE _).mem_iff).mpr hu
      rw [hcons] at hu2
      have hsorted :
          List.Sorted priorityLE
            (sortByPriority (approachingTrains st station)) :=
        List.sorted_insertionSort priorityLE _
      rw [hcons, List.sorted_cons] at hsorted
      rcases List.mem_cons.mp hu2 with rfl | hu3
      · exact le_refl _
      · exact hsorted.1 u hu3
  · intro hlen hloop
    have hnotlt : ¬ (approachingTrains st station).length < 2 := by omega
    constructor
    · simp [optimize_crossing, hnotlt, hloop]
    · simp [optimize_crossing, hnotlt, hloop]

/-- Station and two approaching trains of the spec's concrete crossing
scenario: A with priority 2 and B with priority 1. -/
def stW : Station := ⟨1, "S", true⟩

def stateW : NetworkState :=
  ⟨0, [⟨⟨1, "A", 2⟩, [], some stW⟩, ⟨⟨2, "B", 1⟩, [], some stW⟩], []⟩

theorem c4_crossing_witness :
    (optimize_crossing stateW stW).action = "LOOP_LINE_CROSSING" ∧
    (optimize_crossing stateW stW).through_train = some "B" ∧
    (optimize_crossing stateW stW).loop_trains = some ["A"] := by
  obtain ⟨tr, rest, hcons, hact, hthrough, hloop, -, -⟩ :=
    (c4_crossing stateW stW).2.1 (by decide) rfl
  have hs : sortByPriority (approachingTrains stateW stW) =
      [⟨2, "B", 1⟩, ⟨1, "A", 2⟩] := by decide
  rw [hs] at hcons
  obtain ⟨rfl, rfl⟩ : tr = (⟨2, "B", 1⟩ : Train) ∧
      rest = [(⟨1, "A", 2⟩ : Train)] := by
    have h1 := congrArg (List.head? ·) hcons
    have h2 := congrArg (List.drop 1 ·) hcons
    simp at h1 h2
    exact ⟨h1.symm, h2.symm⟩
  exact ⟨hact, hthrough, hloop⟩

end Rail
